import Mathlib

/-!
Verification development for the keyword-arbitrage prospecting pipeline
(scoring_utils.py, surfer_prospector_module.py, surfer_queue_consumer.py).

Strings are embedded as lists of code points (`Kw`); Python float arithmetic
is embedded as exact arithmetic (ℚ where no transcendental function occurs,
ℝ for the time/velocity estimator which uses log10).  Whitespace and case
handling model Python's behaviour on the ASCII plane.
-/

set_option maxHeartbeats 1000000

namespace LeadGen

/-- Code points of a keyword string. -/
abbrev Kw := List Nat

/-- Helper to write concrete keywords. -/
def strK (s : String) : Kw := s.data.map Char.toNat

/-- Python whitespace test (re `\s`, `str.strip`, `str.split`) on the ASCII plane:
space, tab, newline, carriage return, vertical tab, form feed. -/
def isWs (c : Nat) : Bool := c = 32 || c = 9 || c = 10 || c = 13 || c = 11 || c = 12

/-- Python `str.lower` on the ASCII plane. -/
def lowerChar (c : Nat) : Nat := if 65 ≤ c ∧ c ≤ 90 then c + 32 else c

/-- Python `str.lower` over a whole string. -/
def lowerKw (k : Kw) : Kw := k.map lowerChar

/-- Python `str.strip`: remove leading and trailing whitespace (removal order is
immaterial; we drop the trailing run first, then the leading run). -/
def stripKw (k : Kw) : Kw :=
  List.dropWhile isWs ((List.dropWhile isWs k.reverse).reverse)

/-- Python `re.sub(r'\s+', ' ', s)`: replace every maximal whitespace run by a single
space.  The Boolean argument records whether the previous character was
whitespace (i.e. whether we are inside a run already replaced). -/
def collapseWsAux : Bool → Kw → Kw
  | _, [] => []
  | prev, c :: rest =>
    if isWs c then
      if prev then collapseWsAux true rest else 32 :: collapseWsAux true rest
    else c :: collapseWsAux false rest

/-- Python `re.sub(r'\s+', ' ', s)` from the start of the string. -/
def collapseWs (k : Kw) : Kw := collapseWsAux false k

/-- scoring_utils._normalize_keyword: lowercase, strip leading/trailing
whitespace, collapse internal whitespace runs to single spaces. -/
def normalize_keyword (k : Kw) : Kw := collapseWs (stripKw (lowerKw k))

/-- scoring_utils.calculate_keyword_arbitrage_score:
value (volume × cpc) over competition shifted by the 0.01 epsilon. -/
def calculate_keyword_arbitrage_score (volume cpc competition : ℚ) : ℚ :=
  (volume * cpc) / (competition + 0.01)

/-- scoring_utils.calculate_velocity. -/
def calculate_velocity (competition : ℚ) : ℚ :=
  min 100 (1 / (competition ^ 2 + 0.001))

/-- scoring_utils.calculate_time_impact_multiplier: 1.15 boost up to 4 weeks,
linear down to 1.0 at 8 weeks, then a 2%-per-week penalty floored at 0.6. -/
noncomputable def calculate_time_impact_multiplier (T : ℝ) : ℝ :=
  if T ≤ 4 then 1.15
  else if T ≤ 8 then 1.15 + ((1 - 1.15) / (8 - 4)) * (T - 4)
  else max 0.6 (1 - (T - 8) * 0.02)

/-- scoring_utils.estimate_time_and_velocity: time-to-rank estimate T (weeks)
and velocity V = round(clamp(104 − T, 1, 100)).  The source's tuning
parameters K=20, b=0.6, d=0.08, s=0.25 are passed explicitly by callers here.
(Python `round` is half-to-even; Mathlib `round` is half-up — they agree off
exact halves, and no claim depends on V.) -/
noncomputable def estimate_time_and_velocity (C P Vol A K b d s : ℝ) : ℝ × ℤ :=
  let adjusted_C := max 0.01 C
  let T := (K * adjusted_C * (1 + b * Real.logb 10 (P + 1)) * (1 + d * Real.logb 10 (Vol + 1))) / (A + s)
  let V := round (max 1 (min 100 (104 - T)))
  (T, V)

/-- scoring_utils.calculate_base_value_score. -/
def calculate_base_value_score (volume cpc : ℚ) : ℚ := volume * cpc

/-- scoring_utils.calculate_long_term_arbitrage_score. -/
noncomputable def calculate_long_term_arbitrage_score (base_value_score competition T : ℝ) : ℝ :=
  base_value_score / ((competition + 0.01) + T * 0.002)

/-- scoring_utils.get_competition_band. -/
def get_competition_band (competition : ℚ) : ℤ :=
  if 0 ≤ competition ∧ competition ≤ 0.10 then 1
  else if 0.11 ≤ competition ∧ competition ≤ 0.20 then 2
  else if 0.21 ≤ competition ∧ competition ≤ 0.30 then 3
  else if 0.31 ≤ competition ∧ competition ≤ 0.40 then 4
  else 5

/-- scoring_utils.classify_content_angle. -/
def classify_content_angle (competition : ℚ) : String :=
  if competition < 0.33 then "Quick wins / long-tail blog"
  else if 0.33 ≤ competition ∧ competition < 0.66 then "Comparison / listicle"
  else "In-depth guide / landing page"

/-- scoring_utils.classify_monetization. -/
def classify_monetization (cpc : ℚ) : String :=
  if 5 < cpc then "Service / conversion page"
  else if 1 ≤ cpc ∧ cpc ≤ 5 then "Lead gen blog post"
  else "Top-of-funnel explainer"

/-- Python `str.split()` (no argument): whitespace-delimited tokens, empty tokens
dropped.  The accumulator holds the current token reversed. -/
def splitWsAux : Kw → Kw → List Kw
  | [], acc => if acc = [] then [] else [acc.reverse]
  | c :: rest, acc =>
    if isWs c then
      if acc = [] then splitWsAux rest [] else acc.reverse :: splitWsAux rest []
    else splitWsAux rest (c :: acc)

/-- Python `str.split()` from the start of the string. -/
def splitWs (k : Kw) : List Kw := splitWsAux k []

/-- Python `set(kw.lower().split())`, as a deduplicated list of tokens. -/
def wordSet (k : Kw) : List Kw := (splitWs (lowerKw k)).dedup

/-- Python `len(primary_words.intersection(cand_words))`: number of distinct tokens
shared by the primary's word set and the candidate keyword. -/
def commonWordCount (pwords : List Kw) (cand : Kw) : Nat :=
  (pwords.filter (fun w => decide (w ∈ wordSet cand))).length

/-- One cluster of scoring_utils.cluster_keywords_by_overlap:
`{"primary": ..., "related": [...]}`. -/
structure Cluster where
  primary : Kw
  related : List Kw
deriving DecidableEq

/-- Inner loop of cluster_keywords_by_overlap: scan the keywords after the
primary, attaching every not-yet-used candidate sharing at least
`minCommon` tokens with the primary's word set, and marking it used.
Returns (related list, updated used set). -/
def buildRelated (pwords : List Kw) (minCommon : Nat) : List Kw → List Kw → List Kw × List Kw
  | [], used => ([], used)
  | c :: rest, used =>
    if c ∈ used then buildRelated pwords minCommon rest used
    else if minCommon ≤ commonWordCount pwords c then
      (c :: (buildRelated pwords minCommon rest (used ++ [c])).1,
        (buildRelated pwords minCommon rest (used ++ [c])).2)
    else buildRelated pwords minCommon rest used

/-- Outer loop of cluster_keywords_by_overlap: each not-yet-used keyword opens
a new cluster as primary (marked used first), then the remaining keywords are
scanned for related members. -/
def clusterOuter (minCommon : Nat) : List Kw → List Kw → List Cluster
  | [], _ => []
  | kw :: rest, used =>
    if kw ∈ used then clusterOuter minCommon rest used
    else
      { primary := kw,
        related := (buildRelated (wordSet kw) minCommon rest (used ++ [kw])).1 }
        :: clusterOuter minCommon rest (buildRelated (wordSet kw) minCommon rest (used ++ [kw])).2

/-- scoring_utils.cluster_keywords_by_overlap. -/
def cluster_keywords_by_overlap (keywords : List Kw) (min_common_words : Nat) : List Cluster :=
  clusterOuter min_common_words keywords []

/-- All keywords placed in some cluster, primaries and related members alike. -/
def clusterMembers (cs : List Cluster) : List Kw :=
  (cs.map (fun c => c.primary :: c.related)).flatten

/-! ### Pool builder (surfer_prospector_module.py) -/

def MAX_QUERY_PARAM_LENGTH_SOFT : Nat := 400
def MAX_QUERY_PARAM_LENGTH_HARD : Nat := 500
def MAX_BATCH_SIZE : Nat := 50

/-- Lowercase hex digit. -/
def hexDigit (n : Nat) : Nat := if n < 10 then 48 + n else 87 + n

/-- Four lowercase hex digits of a (BMP) code unit. -/
def hex4 (n : Nat) : List Nat :=
  [hexDigit (n / 4096 % 16), hexDigit (n / 256 % 16), hexDigit (n / 16 % 16), hexDigit (n % 16)]

/-- json.dumps escaping of one character inside a string literal (default
ensure_ascii=True: quote, backslash and control characters get two-character
or \uXXXX escapes, anything above 0x7E a \uXXXX escape, astral code points a
surrogate pair). -/
def jsonEscapeChar (c : Nat) : List Nat :=
  if c = 34 then [92, 34]
  else if c = 92 then [92, 92]
  else if c = 8 then [92, 98]
  else if c = 9 then [92, 116]
  else if c = 10 then [92, 110]
  else if c = 12 then [92, 102]
  else if c = 13 then [92, 114]
  else if c < 32 then 92 :: 117 :: hex4 c
  else if c ≤ 126 then [c]
  else if c < 65536 then 92 :: 117 :: hex4 c
  else (92 :: 117 :: hex4 (55296 + (c - 65536) / 1024))
    ++ (92 :: 117 :: hex4 (56320 + (c - 65536) % 1024))

/-- json.dumps of one string literal. -/
def jsonDumpStr (k : Kw) : Kw := 34 :: ((k.map jsonEscapeChar).flatten ++ [34])

/-- Python `json.dumps(items, separators=(",", ":"))` for a list of strings. -/
def jsonDumpList (items : List Kw) : Kw :=
  91 :: (List.intercalate [44] (items.map jsonDumpStr) ++ [93])

/-- Encoded length of one (ASCII) character under `urllib.parse.quote_plus`
with safe="": alphanumerics and `-._~` stay themselves, a space becomes `+`,
everything else `%XX`. -/
def quotePlusCharLen (c : Nat) : Nat :=
  if (48 ≤ c ∧ c ≤ 57) ∨ (65 ≤ c ∧ c ≤ 90) ∨ (97 ≤ c ∧ c ≤ 122)
      ∨ c = 45 ∨ c = 46 ∨ c = 95 ∨ c = 126 then 1
  else if c = 32 then 1
  else 3

/-- surfer_prospector_module.get_encoded_query_param_length: length of the
URL-percent-encoded JSON array representation of the items. -/
def get_encoded_query_param_length (items : List Kw) : Nat :=
  ((jsonDumpList items).map quotePlusCharLen).sum

/-- A keyword record returned by the external API.  Optional fields model keys
absent from the JSON payload. -/
structure Payload where
  search_volume : Option ℚ
  cpc : Option ℚ
  competition : Option ℚ
  similar_keywords : List Kw
deriving DecidableEq

/-- Oracle view of fetch_keywords_for_batch: the API's record for a single
keyword, none meaning the keyword is absent from the response.  The HTTP,
throttling and retry machinery is outside the embedding; a batch response is
the restriction of this oracle to the batch, and the country parameter is
absorbed by the oracle. -/
abbrev Fetcher := Kw → Option Payload

/-- Python ordered-dict insertion/update for an association list (updates keep
the key's original position, new keys append). -/
def dictSet {α : Type} : List (Kw × α) → Kw → α → List (Kw × α)
  | [], k, v => [(k, v)]
  | (k0, v0) :: rest, k, v =>
    if k0 = k then (k0, v) :: rest else (k0, v0) :: dictSet rest k v

/-- Python dict deletion (no-op when the key is absent, matching the guarded
`if kw in pool_map: del pool_map[kw]`). -/
def dictDel {α : Type} : List (Kw × α) → Kw → List (Kw × α)
  | [], _ => []
  | (k0, v0) :: rest, k => if k0 = k then rest else (k0, v0) :: dictDel rest k

/-- Python substring containment `needle in hay`. -/
def hasSubKw (needle hay : Kw) : Bool :=
  (List.range (hay.length + 1)).any (fun i => decide ((hay.drop i).take needle.length = needle))

/-- State threaded through build_keyword_pool: the keyword → payload pool
(none = the `{}` placeholder), the frontier queue, the processed set, and an
instrumentation counter of fetch_keywords_for_batch calls. -/
structure PoolState where
  pool : List (Kw × Option Payload)
  queue : List Kw
  processed : List Kw
  fetches : Nat
deriving DecidableEq

/-- Per-seed body of the seed initialisation (lines 297-302): normalize the
seed and, if not yet processed, enqueue it, mark it processed and give it a
`{}` pool placeholder. -/
def seedStep (st : PoolState) (seed : Kw) : PoolState :=
  let n := normalize_keyword seed
  if n ∈ st.processed then st
  else { st with queue := st.queue ++ [n]
                 processed := st.processed ++ [n]
                 pool := dictSet st.pool n none }

/-- Seed initialisation of build_keyword_pool (lines 297-302). -/
def seedInit (seeds : List Kw) : PoolState := seeds.foldl seedStep ⟨[], [], [], 0⟩

/-- Inner batch-collection loop of build_keyword_pool (lines 311-335): dequeue
keywords while the batch is below MAX_BATCH_SIZE, skipping any keyword already
in processed_keywords; a keyword whose inclusion would push the encoded length
over the hard limit is re-enqueued at the back and the batch flushed; the
batch is also flushed as soon as it crosses the soft limit or the maximum
size.  Returns (batch, remaining queue). -/
def collectBatch : List Kw → List Kw → List Kw → List Kw × List Kw
  | [], _, cur => (cur, [])
  | k :: rest, processed, cur =>
    if MAX_BATCH_SIZE ≤ cur.length then (cur, k :: rest)
    else if k ∈ processed then collectBatch rest processed cur
    else if MAX_QUERY_PARAM_LENGTH_HARD < get_encoded_query_param_length (cur ++ [k]) then
      (cur, rest ++ [k])
    else if MAX_QUERY_PARAM_LENGTH_SOFT < get_encoded_query_param_length (cur ++ [k])
        ∨ MAX_BATCH_SIZE ≤ (cur ++ [k]).length then
      (cur ++ [k], rest)
    else collectBatch rest processed (cur ++ [k])

/-- Response-processing body of the frontier loop (lines 345-381), for one
batch keyword: store the returned payload, walk its similar_keywords
(normalized) and enqueue those that are geographically relevant, unvisited and
within the target size, giving them `{}` placeholders; keywords absent from
the response are deleted from the pool. -/
def processOneKw (fetcher : Fetcher) (target : Int) (cities : List Kw)
    (st : PoolState) (kw : Kw) : PoolState :=
  match fetcher kw with
  | some payload =>
    let st1 : PoolState := { st with pool := dictSet st.pool kw (some payload) }
    payload.similar_keywords.foldl (fun st2 s =>
      if s = [] then st2
      else
        let sim := normalize_keyword s
        if sim ≠ [] ∧ (cities.any (fun city => hasSubKw city sim)) = true
            ∧ sim ∉ st2.processed ∧ (st2.pool.length : Int) < target then
          { st2 with queue := st2.queue ++ [sim]
                     processed := st2.processed ++ [sim]
                     pool := dictSet st2.pool sim none }
        else st2) st1
  | none => { st with pool := dictDel st.pool kw }

/-- Outer frontier loop of build_keyword_pool (lines 307-339), with explicit
fuel bounding the number of iterations.  Because every keyword is added to
processed_keywords at the moment it is enqueued, the inner collection loop
skips every dequeued keyword and the loop breaks in its first iteration
whenever the entry invariant (queue ⊆ processed) holds, so any positive fuel
gives the loop's exact result. -/
def poolLoop (fetcher : Fetcher) (target : Int) (cities : List Kw) :
    Nat → PoolState → PoolState
  | 0, st => st
  | fuel + 1, st =>
    if st.queue ≠ [] ∧ (st.pool.length : Int) < target then
      let bq := collectBatch st.queue st.processed []
      if bq.1 = [] then { st with queue := bq.2 }
      else
        poolLoop fetcher target cities fuel
          (bq.1.foldl (processOneKw fetcher target cities)
            { st with queue := bq.2, fetches := st.fetches + 1 })
    else st

/-- Chunking `missing_payload_keywords[i : i + MAX_BATCH_SIZE]`, with fuel for
structural recursion (fuel = list length always suffices). -/
def chunksAux : Nat → List Kw → List (List Kw)
  | 0, _ => []
  | _, [] => []
  | fuel + 1, l => l.take MAX_BATCH_SIZE :: chunksAux fuel (l.drop MAX_BATCH_SIZE)

/-- Split a list into consecutive chunks of MAX_BATCH_SIZE. -/
def chunksOfBatchSize (l : List Kw) : List (List Kw) := chunksAux l.length l

/-- Per-keyword body of the missing-payload pass: fill the entry from the
batch response, or drop it when still absent. -/
def fillStep (fetcher : Fetcher) (st : PoolState) (kw : Kw) : PoolState :=
  match fetcher kw with
  | some payload => { st with pool := dictSet st.pool kw (some payload) }
  | none => { st with pool := dictDel st.pool kw }

/-- Missing-payload pass of build_keyword_pool (lines 384-398): re-fetch, in
chunks of MAX_BATCH_SIZE, every pool entry still holding the `{}` placeholder;
entries still absent from the response are dropped from the pool. -/
def fillMissing (fetcher : Fetcher) (st : PoolState) : PoolState :=
  let missing := (st.pool.filter (fun p => decide (p.2 = none))).map Prod.fst
  (chunksOfBatchSize missing).foldl (fun st2 batch =>
    batch.foldl (fillStep fetcher) { st2 with fetches := st2.fetches + 1 }) st

/-- Final deduplication/volume filter of build_keyword_pool (lines 400-417):
keep entries whose search_volume is present and at least the minimum and whose
cpc and competition are present.  (`{}` placeholders fail the search_volume
check; non-dict payloads are unrepresentable in the Payload type.) -/
def finalFilter (minVol : ℚ) (pool : List (Kw × Option Payload)) : List (Kw × Payload) :=
  pool.filterMap (fun p =>
    match p.2 with
    | some payload =>
      match payload.search_volume with
      | some vol =>
        if minVol ≤ vol ∧ payload.cpc.isSome ∧ payload.competition.isSome
        then some (p.1, payload) else none
      | none => none
    | none => none)

/-- surfer_prospector_module.build_keyword_pool: the cleaned keyword → payload
map, paired with the number of fetch_keywords_for_batch calls made
(instrumentation for the cache-hit claims). -/
def build_keyword_pool (fetcher : Fetcher) (seed_keywords : List Kw) (target_size : Int)
    (min_volume_filter : ℚ) (service_radius_cities : List Kw) : List (Kw × Payload) × Nat :=
  let normalized_cities :=
    (service_radius_cities.filter (fun c => decide (c ≠ []))).map normalize_keyword
  let st0 := seedInit seed_keywords
  let st1 := poolLoop fetcher target_size normalized_cities (st0.queue.length + 1) st0
  let st2 := fillMissing fetcher st1
  (finalFilter min_volume_filter st2.pool, st2.fetches)

/-- Fetcher stub of the spec's end-to-end example (§8): the seed
"plumber orlando" with one similar keyword "emergency plumber orlando". -/
def stubFetcher : Fetcher := fun k =>
  if k = strK "plumber orlando" then
    some ⟨some 100, some 2, some 0.2, [strK "emergency plumber orlando"]⟩
  else if k = strK "emergency plumber orlando" then
    some ⟨some 50, some 3, some 0.3, []⟩
  else none

/-- Fetcher stub with records for the two one-letter seeds "a" and "b". -/
def twoSeedFetcher : Fetcher := fun k =>
  if k = strK "a" then some ⟨some 100, some 1, some 0.5, []⟩
  else if k = strK "b" then some ⟨some 100, some 1, some 0.5, []⟩
  else none

/-- Fetcher stub whose responses never contain the requested keyword. -/
def emptyFetcher : Fetcher := fun _ => none

/-! ### Prospecting orchestrator (run_prospecting_async) -/

/-- A scored keyword as assembled by run_prospecting_async (lines 537-556).
estimated_time and the scores derived from it live in ℝ because the time
estimator uses log10; purely rational quantities stay in ℚ. -/
structure ScoredKw where
  keyword : Kw
  search_volume : ℚ
  cpc : ℚ
  competition : ℚ
  arbitrage_score : ℚ
  velocity_score : ℚ
  time_impact : ℝ
  estimated_time : ℝ
  estimated_velocity : ℤ
  base_value_score : ℚ
  long_term_arbitrage_score : ℝ
  competition_band : ℤ
  content_angle : String
  monetization : String
  low_roi : ℚ
  high_roi : ℚ
  roi : ℚ

/-- Scoring of one pool entry (run_prospecting_async lines 476-556): the
`.get(..., default)` reads always find their keys for entries that passed the
final pool filter, and `roi` is set to `high_roi`. -/
noncomputable def scoreKeyword (domain_authority : ℝ) (avg_job_amount : ℚ)
    (kw : Kw) (data : Payload) : ScoredKw :=
  let search_volume := data.search_volume.getD 0
  let cpc := data.cpc.getD 0
  let competition := data.competition.getD 0
  let T := (estimate_time_and_velocity (competition : ℝ) (cpc : ℝ) (search_volume : ℝ)
    domain_authority 20 0.6 0.08 0.25).1
  let V := (estimate_time_and_velocity (competition : ℝ) (cpc : ℝ) (search_volume : ℝ)
    domain_authority 20 0.6 0.08 0.25).2
  let base_value_score := calculate_base_value_score search_volume cpc
  let high_roi := search_volume * avg_job_amount * 0.03
  { keyword := kw
    search_volume := search_volume
    cpc := cpc
    competition := competition
    arbitrage_score := calculate_keyword_arbitrage_score search_volume cpc competition
    velocity_score := calculate_velocity competition
    time_impact := calculate_time_impact_multiplier T
    estimated_time := T
    estimated_velocity := V
    base_value_score := base_value_score
    long_term_arbitrage_score :=
      calculate_long_term_arbitrage_score (base_value_score : ℝ) (competition : ℝ) T
    competition_band := get_competition_band competition
    content_angle := classify_content_angle competition
    monetization := classify_monetization cpc
    low_roi := search_volume * avg_job_amount * 0.01
    high_roi := high_roi
    roi := high_roi }

/-- Python `sorted(scored, key=estimated_time)`: stable ascending sort
(mergeSort is stable, like Python's sort). -/
noncomputable def sortByEstTime (l : List ScoredKw) : List ScoredKw :=
  l.mergeSort (fun a b => decide (a.estimated_time ≤ b.estimated_time))

/-- Python `sorted(subset, key=roi, reverse=True)`: stable descending sort. -/
def sortByRoiDesc (l : List ScoredKw) : List ScoredKw :=
  l.mergeSort (fun a b => decide (b.roi ≤ a.roi))

/-- Python `max()` over a list, 0 for the (unreachable) empty case. -/
noncomputable def pyMax : List ℝ → ℝ
  | [] => 0
  | x :: xs => xs.foldl max x

/-- Short-term strategy selection (run_prospecting_async lines 560-585): sort
ascending by estimated_time, take the first 4, re-sort that subset only
descending by roi; max_time_to_implement is the maximum estimated_time among
the selected keywords (([], 0.0) when nothing is selected). -/
noncomputable def selectTop4 (scored : List ScoredKw) : List ScoredKw × ℝ :=
  if scored.isEmpty then ([], 0)
  else
    let top_4_by_time := (sortByEstTime scored).take 4
    if top_4_by_time.isEmpty then ([], 0)
    else
      let top_4_by_roi := sortByRoiDesc top_4_by_time
      (top_4_by_roi, pyMax (top_4_by_roi.map (fun x => x.estimated_time)))

/-- Claim-relevant view of the dictionary returned by run_prospecting_async,
plus instrumentation: whether fetch_customer_domain_data was called and the
total number of keyword-data API calls. -/
structure RunOutcome where
  error : Option String
  scored_keywords : List ScoredKw
  short_term : List ScoredKw × ℝ
  domainFetched : Bool
  fetcherCalls : Nat

/-- surfer_prospector_module.run_prospecting_async: build the pool; on an
empty pool return {"error": "Empty keyword pool", "scored_keywords": []}
before any domain fetch or scoring; otherwise fetch the caller's domain
authority (`.get("domain_authority", 0.0)`), score every pool entry and run
the short-term strategy selection.  `domainData` is the oracle view of
fetch_customer_domain_data; LLM-driven city clustering happens outside this
function. -/
noncomputable def run_prospecting (fetcher : Fetcher) (domainData : Kw → Option ℝ)
    (seed_keywords : List Kw) (customer_domain : Kw) (avg_job_amount : ℚ)
    (service_radius_cities : List Kw) (target_pool_size : Int)
    (min_volume_filter : ℚ) : RunOutcome :=
  let bp := build_keyword_pool fetcher seed_keywords target_pool_size min_volume_filter
    service_radius_cities
  if bp.1 = [] then
    { error := some "Empty keyword pool"
      scored_keywords := []
      short_term := ([], 0)
      domainFetched := false
      fetcherCalls := bp.2 }
  else
    let domain_authority := (domainData customer_domain).getD 0
    let scored := bp.1.map (fun p => scoreKeyword domain_authority avg_job_amount p.1 p.2)
    { error := none
      scored_keywords := scored
      short_term := selectTop4 scored
      domainFetched := true
      fetcherCalls := bp.2 + 1 }

/-- Test fixture: a scored keyword with the given estimated_time and roi and
zeroed remaining fields. -/
noncomputable def mkScoredDemo (t : ℝ) (r : ℚ) : ScoredKw :=
  ⟨[], 0, 0, 0, 0, 0, 0, t, 0, 0, 0, 0, "", "", 0, r, r⟩

/-- Test fixture: five scored keywords with distinct times and rois. -/
noncomputable def demoScored : List ScoredKw :=
  [mkScoredDemo 3 10, mkScoredDemo 1 5, mkScoredDemo 7 40, mkScoredDemo 2 1, mkScoredDemo 5 9]

/-! ### Queue consumer (surfer_queue_consumer.py) -/

/-- Status column of surfer_prospector_queue. -/
inductive TaskStatus
  | pending
  | processing
  | completed
  | failed
deriving DecidableEq

/-- A canonical_categories cache entry as the consumer's freshness check sees
it: only lastUpdated matters, modeled as already-parsed seconds since epoch
(none when the JSON metadata has no lastUpdated key). -/
structure CacheEntry where
  lastUpdated : Option Int
deriving DecidableEq

/-- One row of surfer_prospector_queue as passed to process_queue_item;
seed_keywords and service_radius_cities hold raw JSON text, deserialized
inside the try block. -/
structure Task where
  seed_keywords : Kw
  customer_domain : Kw
  avg_job_amount : ℚ
  avg_conversion_rate : ℚ
  category : Kw
  state : Kw
  service_radius_cities : Kw
  target_pool_size : Int
  min_volume_filter : ℚ
  country : Kw

/-- JSON whitespace. -/
def isJsonWs (c : Nat) : Bool := c = 32 || c = 9 || c = 10 || c = 13

/-- Parse one JSON string literal without escape sequences (the producer never
writes escapes): an opening quote, content up to the closing quote. -/
def parseJString : List Nat → Except String (Kw × List Nat)
  | [] => .error "Expecting string"
  | c :: rest =>
    if c = 34 then
      let content := rest.takeWhile (fun d => decide (d ≠ 34) && decide (d ≠ 92))
      match rest.drop content.length with
      | 34 :: tail => .ok (content, tail)
      | _ => .error "Unterminated string"
    else .error "Expecting string"

/-- Comma-separated items of a JSON array of strings; fuel bounds iterations
(the input length always suffices, each item consumes characters). -/
def parseItemsAux : Nat → List Nat → List Kw → Except String (List Kw)
  | 0, _, _ => .error "Out of fuel"
  | fuel + 1, s, acc =>
    match parseJString (s.dropWhile isJsonWs) with
    | .error e => .error e
    | .ok (str, rest) =>
      match rest.dropWhile isJsonWs with
      | 93 :: tail =>
        if tail.dropWhile isJsonWs = [] then .ok (acc ++ [str]) else .error "Extra data"
      | 44 :: tail => parseItemsAux fuel tail (acc ++ [str])
      | _ => .error "Expecting delimiter"

/-- json.loads restricted to the shape the consumer reads (a JSON array of
strings, no escapes), as applied to seed_keywords and
service_radius_cities. -/
def parseStringList (s : Kw) : Except String (List Kw) :=
  match s.dropWhile isJsonWs with
  | 91 :: rest =>
    match rest.dropWhile isJsonWs with
    | 93 :: tail =>
      if tail.dropWhile isJsonWs = [] then .ok [] else .error "Extra data"
    | _ => parseItemsAux (s.length + 1) rest []
  | _ => .error "Expecting value"

/-- Observable outcome of process_queue_item: the task's final status, its
error_message, the number of keyword-data API calls made
(fetch_keywords_for_batch plus fetch_customer_domain_data), and whether the
prospecting pipeline ran. -/
structure ConsumerOutcome where
  finalStatus : TaskStatus
  errorMessage : Option String
  fetcherCalls : Nat
  prospectingRan : Bool

/-- The composite cache key
`f"{task_data['category']}/{state.lower()}-{country.lower()}"`. -/
def categoryLocationId (t : Task) : Kw :=
  t.category ++ [47] ++ (lowerKw t.state ++ ([45] ++ lowerKw t.country))

/-- The cache-check logic of process_queue_item (lines 107-123).  The module
imports only datetime and timezone from datetime (line 7) and never imports
timedelta, so as soon as the cached entry carries a lastUpdated timestamp the
expression timedelta(days=CATEGORY_ARBITRAGE_UPDATE_INTERVAL_DAYS) at line
114 raises NameError: name 'timedelta' is not defined (the left-hand
datetime.now(timezone.utc) − last_updated_dt is evaluated first and
succeeds; lastUpdated here is an already-parsed timestamp, so line 113's
fromisoformat succeeds too).  The intended freshness comparison — and with it
the needs_prospecting = False branch of lines 115-116 and the early
completion of lines 124-128 — is therefore unreachable.  A missing entry or
a missing/empty lastUpdated key leaves needs_prospecting = True and the body
proceeds to prospecting. -/
def cacheCheck (cache : Kw → Option CacheEntry) (key : Kw) : Except String Unit :=
  match cache key with
  | some entry =>
    match entry.lastUpdated with
    | some _ => .error "name 'timedelta' is not defined"
    | none => .ok ()
  | none => .ok ()

/-- The try-block body of process_queue_item (lines 89-249), in an error
monad.  The status is first set to 'processing'; then the cache check runs
(raising NameError whenever the entry has a lastUpdated timestamp — see
cacheCheck; `now` and `ttlDays` are read by the crashing comparison but never
influence the result); then the JSON parameter columns are deserialized
(json.loads may raise) and run_prospecting_async runs.  The city-cluster/LLM
stage, the canonical_categories write and the Firebase push have their own
internal exception handling in the source (their failures never mark the task
failed) and do not affect these observables, so they carry no state here. -/
noncomputable def processBody (cache : Kw → Option CacheEntry) (fetcher : Fetcher)
    (domainData : Kw → Option ℝ) (now ttlDays : Int) (task : Task) :
    Except String ConsumerOutcome := do
  let _ ← cacheCheck cache (categoryLocationId task)
  let seeds ← parseStringList task.seed_keywords
  let cities ← parseStringList task.service_radius_cities
  let r := run_prospecting fetcher domainData seeds task.customer_domain
    task.avg_job_amount cities task.target_pool_size task.min_volume_filter
  .ok { finalStatus := .completed
        errorMessage := none
        fetcherCalls := r.fetcherCalls
        prospectingRan := true }

/-- surfer_queue_consumer.process_queue_item: the try body wrapped in the
boundary exception handler (lines 251-259) — any unhandled exception marks
the task failed with error_message = str(e) and is swallowed, never
re-raised into the consumer loop. -/
noncomputable def process_queue_item (cache : Kw → Option CacheEntry) (fetcher : Fetcher)
    (domainData : Kw → Option ℝ) (now ttlDays : Int) (task : Task) : ConsumerOutcome :=
  match processBody cache fetcher domainData now ttlDays task with
  | .ok r => r
  | .error e =>
    { finalStatus := .failed
      errorMessage := some e
      fetcherCalls := 0
      prospectingRan := false }

/-- Test fixture: a queue row with valid JSON parameter columns. -/
def demoTask : Task :=
  { seed_keywords := strK "[\"plumber orlando\"]"
    customer_domain := strK "example.com"
    avg_job_amount := 300
    avg_conversion_rate := 2
    category := strK "plumbing"
    state := strK "FL"
    service_radius_cities := strK "[\"orlando\"]"
    target_pool_size := 5
    min_volume_filter := 20
    country := strK "US" }

/-- Test fixture: a queue row whose seed_keywords column is not valid JSON. -/
def badTask : Task :=
  { demoTask with seed_keywords := strK "oops" }

/-- Test fixture: a cache holding a fresh entry for demoTask's key. -/
def demoCache : Kw → Option CacheEntry :=
  fun k => if k = categoryLocationId demoTask then some ⟨some 0⟩ else none

end LeadGen

namespace LeadGen

lemma lowerChar_idem (c : Nat) : lowerChar (lowerChar c) = lowerChar c := by
  unfold lowerChar
  split
  · split
    · omega
    · rfl
  · rfl

lemma isWs_false_of_lower (c : Nat) (h : 65 ≤ c ∧ c ≤ 90) : isWs (c + 32) = false := by
  simp only [isWs, Bool.or_eq_false_iff, decide_eq_false_iff_not]
  omega

lemma mem_lowerKw_fixed {c : Nat} {k : Kw} (h : c ∈ lowerKw k) : lowerChar c = c := by
  rcases List.mem_map.mp h with ⟨x, _, rfl⟩
  exact lowerChar_idem x

lemma lowerKw_eq_self {k : Kw} (h : ∀ c ∈ k, lowerChar c = c) : lowerKw k = k := by
  induction k with
  | nil => rfl
  | cons c rest ih =>
    simp only [lowerKw, List.map_cons]
    rw [h c (by simp)]
    have : lowerKw rest = rest := ih (fun x hx => h x (by simp [hx]))
    simpa [lowerKw] using this

lemma mem_collapseWsAux {c : Nat} : ∀ (k : Kw) (b : Bool), c ∈ collapseWsAux b k → c = 32 ∨ c ∈ k := by
  intro k
  induction k with
  | nil => intro b h; simp [collapseWsAux] at h
  | cons d rest ih =>
    intro b h
    simp only [collapseWsAux] at h
    by_cases hd : isWs d
    · simp only [hd, if_true] at h
      cases b with
      | true =>
        rcases ih true h with h32 | hmem
        · exact Or.inl h32
        · exact Or.inr (by simp [hmem])
      | false =>
        rcases List.mem_cons.mp h with rfl | h2
        · exact Or.inl rfl
        · rcases ih true h2 with h32 | hmem
          · exact Or.inl h32
          · exact Or.inr (by simp [hmem])
    · simp only [hd, if_false, Bool.false_eq_true] at h
      rcases List.mem_cons.mp h with rfl | h2
      · exact Or.inr (by simp)
      · rcases ih false h2 with h32 | hmem
        · exact Or.inl h32
        · exact Or.inr (by simp [hmem])

lemma mem_stripKw {c : Nat} {k : Kw} (h : c ∈ stripKw k) : c ∈ k := by
  unfold stripKw at h
  have h1 : c ∈ (List.dropWhile isWs k.reverse).reverse :=
    List.Sublist.mem h (List.dropWhile_sublist isWs)
  have h2 : c ∈ List.dropWhile isWs k.reverse := by simpa using h1
  have h3 : c ∈ k.reverse := List.Sublist.mem h2 (List.dropWhile_sublist isWs)
  simpa using h3

lemma collapseWsAux_cons_nonws {d : Nat} (b : Bool) (rest : Kw) (hd : isWs d = false) :
    collapseWsAux b (d :: rest) = d :: collapseWsAux false rest := by
  simp [collapseWsAux, hd]

lemma collapseWsAux_cons_ws_true {d : Nat} (rest : Kw) (hd : isWs d = true) :
    collapseWsAux true (d :: rest) = collapseWsAux true rest := by
  simp [collapseWsAux, hd]

lemma collapseWsAux_cons_ws_false {d : Nat} (rest : Kw) (hd : isWs d = true) :
    collapseWsAux false (d :: rest) = 32 :: collapseWsAux true rest := by
  simp [collapseWsAux, hd]

lemma head_dropWhile {p : Nat → Bool} : ∀ (k : Kw) (c : Nat), (List.dropWhile p k).head? = some c → p c = false := by
  intro k
  induction k with
  | nil => intro c h; simp at h
  | cons d rest ih =>
    intro c h
    rw [List.dropWhile_cons] at h
    by_cases hd : p d
    · exact ih c (by simpa [hd] using h)
    · simp only [hd, if_false, Bool.false_eq_true, List.head?_cons, Option.some.injEq] at h
      subst h
      simpa using hd

lemma getLast_dropWhile {p : Nat → Bool} : ∀ (k : Kw), (List.dropWhile p k).getLast? = k.getLast? ∨ List.dropWhile p k = [] := by
  intro k
  induction k with
  | nil => exact Or.inr rfl
  | cons d rest ih =>
    rw [List.dropWhile_cons]
    by_cases hd : p d
    · simp only [hd, if_true]
      cases rest with
      | nil => exact Or.inr (by simp)
      | cons e r =>
        rcases ih with heq | hnil
        · exact Or.inl (by rw [heq, List.getLast?_cons_cons])
        · exact Or.inr hnil
    · simp [hd]

lemma head_stripKw {k : Kw} {c : Nat} (h : (stripKw k).head? = some c) : isWs c = false :=
  head_dropWhile _ c h

lemma getLast_stripKw {k : Kw} {c : Nat} (h : (stripKw k).getLast? = some c) : isWs c = false := by
  unfold stripKw at h
  rcases getLast_dropWhile ((List.dropWhile isWs k.reverse).reverse) with heq | hnil
  · rw [heq] at h
    rw [List.getLast?_reverse] at h
    exact head_dropWhile _ c h
  · rw [hnil] at h
    simp at h

lemma head_collapseWs {m : Kw} (hm : ∀ c, m.head? = some c → isWs c = false) :
    ∀ c, (collapseWs m).head? = some c → isWs c = false := by
  intro c h
  cases m with
  | nil => simp [collapseWs, collapseWsAux] at h
  | cons d rest =>
    have hd : isWs d = false := hm d rfl
    simp only [collapseWs, collapseWsAux, hd, Bool.false_eq_true, if_false,
      List.head?_cons, Option.some.injEq] at h
    subst h
    exact hd

lemma getLast_collapseWsAux : ∀ (m : Kw) (b : Bool) (c : Nat),
    m.getLast? = some c → isWs c = false → (collapseWsAux b m).getLast? = some c := by
  intro m
  induction m with
  | nil => intro b c h _; simp at h
  | cons d rest ih =>
    intro b c h hc
    cases rest with
    | nil =>
      have hdc : d = c := by simpa using h
      subst hdc
      simp [collapseWsAux, hc]
    | cons e r =>
      rw [List.getLast?_cons_cons] at h
      have hrec : ∀ b2, (collapseWsAux b2 (e :: r)).getLast? = some c := fun b2 => ih b2 c h hc
      by_cases hd : isWs d
      · cases b with
        | true => rw [collapseWsAux_cons_ws_true _ hd]; exact hrec true
        | false =>
          rw [collapseWsAux_cons_ws_false _ hd]
          have h1 := hrec true
          rcases hx : collapseWsAux true (e :: r) with _ | ⟨x, xs⟩
          · rw [hx] at h1; simp at h1
          · rw [hx] at h1
            rw [List.getLast?_cons_cons]
            exact h1
      · rw [collapseWsAux_cons_nonws b _ (by simpa using hd)]
        have h1 := hrec false
        rcases hx : collapseWsAux false (e :: r) with _ | ⟨x, xs⟩
        · rw [hx] at h1; simp at h1
        · rw [hx] at h1
          rw [List.getLast?_cons_cons]
          exact h1

lemma getLast_collapseWs {m : Kw} {c : Nat} (h : m.getLast? = some c) (hc : isWs c = false) :
    (collapseWs m).getLast? = some c :=
  getLast_collapseWsAux m false c h hc

lemma dropWhile_eq_self_of_head {p : Nat → Bool} {k : Kw}
    (h : ∀ c, k.head? = some c → p c = false) : List.dropWhile p k = k := by
  cases k with
  | nil => rfl
  | cons d rest =>
    have hd : p d = false := h d rfl
    simp [List.dropWhile_cons, hd]

lemma stripKw_eq_self {t : Kw} (hh : ∀ c, t.head? = some c → isWs c = false)
    (hl : ∀ c, t.getLast? = some c → isWs c = false) : stripKw t = t := by
  unfold stripKw
  have hrev : List.dropWhile isWs t.reverse = t.reverse := by
    apply dropWhile_eq_self_of_head
    intro c hc
    rw [List.head?_reverse] at hc
    exact hl c hc
  rw [hrev, List.reverse_reverse]
  exact dropWhile_eq_self_of_head hh

lemma collapseWsAux_idem : ∀ (k : Kw) (b : Bool), collapseWsAux b (collapseWsAux b k) = collapseWsAux b k := by
  intro k
  induction k with
  | nil => intro b; rfl
  | cons d rest ih =>
    intro b
    by_cases hd : isWs d
    · cases b with
      | true =>
        rw [collapseWsAux_cons_ws_true _ (by simpa using hd)]
        exact ih true
      | false =>
        rw [collapseWsAux_cons_ws_false _ (by simpa using hd),
          collapseWsAux_cons_ws_false _ (show isWs 32 = true from rfl), ih true]
    · rw [collapseWsAux_cons_nonws b _ (by simpa using hd),
        collapseWsAux_cons_nonws b _ (by simpa using hd), ih false]

/-- C9: `_normalize_keyword` is idempotent: normalizing an already-normalized
keyword returns it unchanged. -/
theorem normalize_keyword_idem (k : Kw) :
    normalize_keyword (normalize_keyword k) = normalize_keyword k := by
  set m : Kw := stripKw (lowerKw k) with hm
  have hmh : ∀ c, m.head? = some c → isWs c = false := fun c hc => head_stripKw hc
  have hml : ∀ c, m.getLast? = some c → isWs c = false := fun c hc => getLast_stripKw hc
  set t : Kw := collapseWs m with ht
  have hlower : lowerKw t = t := by
    apply lowerKw_eq_self
    intro c hc
    rcases mem_collapseWsAux m false hc with rfl | hmem
    · rfl
    · exact mem_lowerKw_fixed (mem_stripKw hmem)
  have hth : ∀ c, t.head? = some c → isWs c = false := head_collapseWs hmh
  have htl : ∀ c, t.getLast? = some c → isWs c = false := by
    intro c hc
    cases hgl : m.getLast? with
    | none =>
      have hmnil : m = [] := List.getLast?_eq_none_iff.mp hgl
      have htnil : t = [] := by rw [ht, hmnil]; rfl
      rw [htnil] at hc
      simp at hc
    | some d =>
      have hd : isWs d = false := hml d hgl
      have hlast : (collapseWs m).getLast? = some d := getLast_collapseWs hgl hd
      rw [← ht] at hlast
      rw [hlast] at hc
      injection hc with hc
      subst hc
      exact hd
  have hstrip : stripKw t = t := stripKw_eq_self hth htl
  calc normalize_keyword t = collapseWs (stripKw (lowerKw t)) := rfl
    _ = collapseWs (stripKw t) := by rw [hlower]
    _ = collapseWs t := by rw [hstrip]
    _ = t := collapseWsAux_idem m false

/-- C6: the arbitrage score is strictly decreasing in competition on [0,1] for
fixed volume and cpc with volume × cpc > 0, and the estimated time T returned
by estimate_time_and_velocity is monotonically non-decreasing in competition
for fixed cpc ≥ 0, volume ≥ 0 and authority ≥ 0 (with the source's default
tuning parameters). -/
theorem scoring_monotonic_in_competition :
    (∀ volume cpc c1 c2 : ℚ, 0 < volume * cpc → 0 ≤ c1 → c1 < c2 → c2 ≤ 1 →
      calculate_keyword_arbitrage_score volume cpc c2
        < calculate_keyword_arbitrage_score volume cpc c1) ∧
    (∀ P Vol A c1 c2 : ℝ, 0 ≤ P → 0 ≤ Vol → 0 ≤ A → c1 ≤ c2 →
      (estimate_time_and_velocity c1 P Vol A 20 0.6 0.08 0.25).1
        ≤ (estimate_time_and_velocity c2 P Vol A 20 0.6 0.08 0.25).1) := by
  constructor
  · intro volume cpc c1 c2 hv h0 hlt _
    unfold calculate_keyword_arbitrage_score
    apply div_lt_div_of_pos_left hv
    · nlinarith
    · nlinarith
  · intro P Vol A c1 c2 hP hVol hA hle
    simp only [estimate_time_and_velocity]
    have hf : (0:ℝ) ≤ 1 + 0.6 * Real.logb 10 (P + 1) := by
      have : (0:ℝ) ≤ Real.logb 10 (P + 1) := Real.logb_nonneg (by norm_num) (by linarith)
      linarith
    have hg : (0:ℝ) ≤ 1 + 0.08 * Real.logb 10 (Vol + 1) := by
      have : (0:ℝ) ≤ Real.logb 10 (Vol + 1) := Real.logb_nonneg (by norm_num) (by linarith)
      linarith
    have hm : max (0.01:ℝ) c1 ≤ max 0.01 c2 := max_le_max le_rfl hle
    have hden : (0:ℝ) ≤ A + 0.25 := by linarith
    apply div_le_div_of_nonneg_right _ hden
    have h1 : (20:ℝ) * max 0.01 c1 ≤ 20 * max 0.01 c2 := by linarith
    have h2 := mul_le_mul_of_nonneg_right h1 hf
    exact mul_le_mul_of_nonneg_right h2 hg

theorem scoring_monotonic_in_competition_witness :
    ((0:ℚ) < 100 * 2 ∧ (0:ℚ) ≤ 0.2 ∧ (0.2:ℚ) < 0.3 ∧ (0.3:ℚ) ≤ 1 ∧
      calculate_keyword_arbitrage_score 100 2 0.3
        < calculate_keyword_arbitrage_score 100 2 0.2) ∧
    ((0:ℝ) ≤ 2 ∧ (0:ℝ) ≤ 50 ∧ (0:ℝ) ≤ 0 ∧ (0.2:ℝ) ≤ 0.3 ∧
      (estimate_time_and_velocity 0.2 2 50 0 20 0.6 0.08 0.25).1
        ≤ (estimate_time_and_velocity 0.3 2 50 0 20 0.6 0.08 0.25).1) :=
  ⟨⟨by norm_num, by norm_num, by norm_num, by norm_num,
    scoring_monotonic_in_competition.1 100 2 0.2 0.3 (by norm_num) (by norm_num)
      (by norm_num) (by norm_num)⟩,
   ⟨by norm_num, by norm_num, le_rfl, by norm_num,
    scoring_monotonic_in_competition.2 2 50 0 0.2 0.3 (by norm_num) (by norm_num)
      le_rfl (by norm_num)⟩⟩

lemma clusterMembers_nil : clusterMembers [] = [] := rfl

lemma clusterMembers_cons (c : Cluster) (cs : List Cluster) :
    clusterMembers (c :: cs) = c.primary :: (c.related ++ clusterMembers cs) := by
  simp [clusterMembers]

lemma buildRelated_snd (pwords : List Kw) (minc : Nat) :
    ∀ (cands used : List Kw),
      (buildRelated pwords minc cands used).2
        = used ++ (buildRelated pwords minc cands used).1 := by
  intro cands
  induction cands with
  | nil => intro used; simp [buildRelated]
  | cons c rest ih =>
    intro used
    by_cases hc : c ∈ used
    · simp [buildRelated, hc, ih]
    · by_cases hm : minc ≤ commonWordCount pwords c
      · simp only [buildRelated, if_neg hc, if_pos hm]
        rw [ih (used ++ [c])]
        simp
      · simp [buildRelated, hc, hm, ih]

lemma buildRelated_fst_spec (pwords : List Kw) (minc : Nat) :
    ∀ (cands used : List Kw),
      (buildRelated pwords minc cands used).1.Nodup ∧
      ∀ x ∈ (buildRelated pwords minc cands used).1,
        x ∉ used ∧ minc ≤ commonWordCount pwords x := by
  intro cands
  induction cands with
  | nil => intro used; simp [buildRelated]
  | cons c rest ih =>
    intro used
    by_cases hc : c ∈ used
    · simpa [buildRelated, hc] using ih used
    · by_cases hm : minc ≤ commonWordCount pwords c
      · simp only [buildRelated, if_neg hc, if_pos hm]
        obtain ⟨hnd, hmem⟩ := ih (used ++ [c])
        constructor
        · rw [List.nodup_cons]
          refine ⟨fun hcr => ?_, hnd⟩
          exact (hmem c hcr).1 (by simp)
        · intro x hx
          rcases List.mem_cons.mp hx with rfl | hx2
          · exact ⟨hc, hm⟩
          · have hx3 := hmem x hx2
            exact ⟨fun hxu => hx3.1 (by simp [hxu]), hx3.2⟩
      · simpa [buildRelated, hc, hm] using ih used

lemma clusterOuter_spec (minc : Nat) :
    ∀ (l used : List Kw),
      (clusterMembers (clusterOuter minc l used)).Nodup ∧
      (∀ m ∈ clusterMembers (clusterOuter minc l used), m ∉ used) ∧
      (∀ cl ∈ clusterOuter minc l used, ∀ r ∈ cl.related,
        minc ≤ commonWordCount (wordSet cl.primary) r) := by
  intro l
  induction l with
  | nil => intro used; simp [clusterOuter, clusterMembers]
  | cons kw rest ih =>
    intro used
    by_cases hkw : kw ∈ used
    · simpa [clusterOuter, hkw] using ih used
    · simp only [clusterOuter, if_neg hkw]
      obtain ⟨hndR, hmemR⟩ := buildRelated_fst_spec (wordSet kw) minc rest (used ++ [kw])
      obtain ⟨ihnd, ihused, ihrel⟩ :=
        ih (buildRelated (wordSet kw) minc rest (used ++ [kw])).2
      have hu2eq : (buildRelated (wordSet kw) minc rest (used ++ [kw])).2
          = (used ++ [kw]) ++ (buildRelated (wordSet kw) minc rest (used ++ [kw])).1 :=
        buildRelated_snd _ _ _ _
      rw [clusterMembers_cons]
      refine ⟨?_, ?_, ?_⟩
      · rw [List.nodup_cons]
        constructor
        · intro hmem
          rcases List.mem_append.mp hmem with hr | hM
          · exact (hmemR kw hr).1 (by simp)
          · exact ihused kw hM (by rw [hu2eq]; simp)
        · refine List.Nodup.append hndR ihnd ?_
          intro x hxr hxM
          exact ihused x hxM (by rw [hu2eq]; simp [hxr])
      · intro m hmem
        rcases List.mem_cons.mp hmem with rfl | hmem2
        · exact hkw
        · rcases List.mem_append.mp hmem2 with hr | hM
          · intro hmu
            exact (hmemR m hr).1 (by simp [hmu])
          · intro hmu
            exact ihused m hM (by rw [hu2eq]; simp [hmu])
      · intro cl hcl r hr
        rcases List.mem_cons.mp hcl with rfl | hcl2
        · exact (hmemR r hr).2
        · exact ihrel cl hcl2 r hr

/-- C8: cluster_keywords_by_overlap places each distinct keyword in at most one
cluster — the concatenation of all primaries and related members has no
duplicates — and a keyword is attached as a related member only if it shares
at least min_common_words distinct case-insensitive whitespace tokens with the
cluster's primary (never merely with a non-primary member). -/
theorem cluster_keywords_by_overlap_invariants (keywords : List Kw) (minc : Nat) :
    (clusterMembers (cluster_keywords_by_overlap keywords minc)).Nodup ∧
    ∀ cl ∈ cluster_keywords_by_overlap keywords minc, ∀ r ∈ cl.related,
      minc ≤ commonWordCount (wordSet cl.primary) r := by
  obtain ⟨h1, _, h3⟩ := clusterOuter_spec minc keywords []
  exact ⟨h1, h3⟩

theorem cluster_keywords_by_overlap_invariants_witness :
    (clusterMembers (cluster_keywords_by_overlap
      [strK "plumber orlando", strK "emergency plumber orlando", strK "roof repair"] 2)).Nodup ∧
    ∀ cl ∈ cluster_keywords_by_overlap
      [strK "plumber orlando", strK "emergency plumber orlando", strK "roof repair"] 2,
      ∀ r ∈ cl.related, 2 ≤ commonWordCount (wordSet cl.primary) r :=
  cluster_keywords_by_overlap_invariants
    [strK "plumber orlando", strK "emergency plumber orlando", strK "roof repair"] 2

/-- C3 (refuted — code bug): the pool builder's batching loop drops every
pending keyword.  Every keyword on the frontier queue was added to
processed_keywords at enqueue time, and the collection loop skips any
dequeued keyword found in processed_keywords, so for every reachable state
the loop produces no batch at all and consumes the whole queue: the flattened
output is empty rather than equal to the input sequence. -/
theorem collectBatch_drops_all_pending (queue processed : List Kw)
    (h : ∀ k ∈ queue, k ∈ processed) :
    collectBatch queue processed [] = ([], []) := by
  induction queue with
  | nil => rfl
  | cons k rest ih =>
    have hk : k ∈ processed := h k (by simp)
    simp only [collectBatch]
    rw [if_neg (by decide), if_pos hk]
    exact ih (fun x hx => h x (by simp [hx]))

theorem collectBatch_drops_all_pending_witness :
    (∀ k ∈ [strK "plumber orlando"], k ∈ [strK "plumber orlando"]) ∧
    collectBatch [strK "plumber orlando"] [strK "plumber orlando"] [] = ([], []) :=
  ⟨fun _ hk => hk,
   collectBatch_drops_all_pending [strK "plumber orlando"] [strK "plumber orlando"]
     (fun _ hk => hk)⟩

/-- C2 (refuted — code bug): on the spec's end-to-end stub the pool builder
returns a single-entry pool containing only the seed — the similar keyword
"emergency plumber orlando" is never explored, because the frontier loop
skips every dequeued keyword — whereas the claim requires a 2-entry pool.
The arbitrage-score half of the claim does hold:
score(100, 2.0, 0.2) = (100·2)/(0.2+0.01) = 20000/21 ≈ 952.38. -/
theorem build_keyword_pool_end_to_end_example :
    (build_keyword_pool stubFetcher [strK "plumber orlando"] 5 20 [strK "orlando"]).1
      = [(strK "plumber orlando",
          ⟨some 100, some 2, some 0.2, [strK "emergency plumber orlando"]⟩)] ∧
    calculate_keyword_arbitrage_score 100 2 0.2 = 20000 / 21 := by
  constructor
  · rfl
  · norm_num [calculate_keyword_arbitrage_score]

lemma dictSet_keys {α : Type} (k : Kw) (v : α) : ∀ (m : List (Kw × α)),
    (dictSet m k v).map Prod.fst
      = if k ∈ m.map Prod.fst then m.map Prod.fst else m.map Prod.fst ++ [k] := by
  intro m
  induction m with
  | nil => simp [dictSet]
  | cons p rest ih =>
    obtain ⟨k0, v0⟩ := p
    by_cases hk : k0 = k
    · subst hk
      simp [dictSet]
    · simp only [dictSet, if_neg hk, List.map_cons, ih]
      have hne : ¬ k = k0 := fun h => hk h.symm
      by_cases hmem : k ∈ rest.map Prod.fst
      · simp [hmem, hne]
      · simp [hmem, hne]

lemma dictSet_keys_nodup {α : Type} {m : List (Kw × α)} (k : Kw) (v : α)
    (hnd : (m.map Prod.fst).Nodup) : ((dictSet m k v).map Prod.fst).Nodup := by
  rw [dictSet_keys]
  split
  · exact hnd
  · next hmem =>
      refine List.Nodup.append hnd (List.nodup_singleton k) ?_
      intro x hx hxk
      simp only [List.mem_singleton] at hxk
      subst hxk
      exact hmem hx

lemma dictSet_keys_subset {α : Type} {m : List (Kw × α)} (k : Kw) (v : α) :
    ∀ x ∈ (dictSet m k v).map Prod.fst, x = k ∨ x ∈ m.map Prod.fst := by
  intro x hx
  rw [dictSet_keys] at hx
  split at hx
  · exact Or.inr hx
  · rcases List.mem_append.mp hx with h | h
    · exact Or.inr h
    · simp only [List.mem_singleton] at h
      exact Or.inl h

lemma dictDel_keys_sublist {α : Type} (k : Kw) : ∀ (m : List (Kw × α)),
    ((dictDel m k).map Prod.fst).Sublist (m.map Prod.fst) := by
  intro m
  induction m with
  | nil => simp [dictDel]
  | cons p rest ih =>
    obtain ⟨k0, v0⟩ := p
    by_cases hk : k0 = k
    · subst hk
      simp [dictDel]
    · simp only [dictDel, if_neg hk, List.map_cons]
      exact ih.cons₂ k0

lemma fillStep_inv (fetcher : Fetcher) (S : List Kw) (st : PoolState) (kw : Kw)
    (hkw : kw ∈ S) (hnd : (st.pool.map Prod.fst).Nodup)
    (hsub : ∀ x ∈ st.pool.map Prod.fst, x ∈ S) :
    ((fillStep fetcher st kw).pool.map Prod.fst).Nodup ∧
      ∀ x ∈ (fillStep fetcher st kw).pool.map Prod.fst, x ∈ S := by
  unfold fillStep
  cases fetcher kw with
  | some payload =>
    refine ⟨dictSet_keys_nodup _ _ hnd, ?_⟩
    intro x hx
    rcases dictSet_keys_subset _ _ x hx with rfl | h
    · exact hkw
    · exact hsub x h
  | none =>
    refine ⟨List.Nodup.sublist (dictDel_keys_sublist kw st.pool) hnd, ?_⟩
    intro x hx
    exact hsub x ((dictDel_keys_sublist kw st.pool).subset hx)

lemma foldl_fillStep_inv (fetcher : Fetcher) (S : List Kw) :
    ∀ (batch : List Kw) (st : PoolState),
    (∀ x ∈ batch, x ∈ S) → (st.pool.map Prod.fst).Nodup →
    (∀ x ∈ st.pool.map Prod.fst, x ∈ S) →
    ((batch.foldl (fillStep fetcher) st).pool.map Prod.fst).Nodup ∧
      ∀ x ∈ (batch.foldl (fillStep fetcher) st).pool.map Prod.fst, x ∈ S := by
  intro batch
  induction batch with
  | nil => intro st _ hnd hsub; exact ⟨hnd, hsub⟩
  | cons kw rest ih =>
    intro st hb hnd hsub
    simp only [List.foldl_cons]
    obtain ⟨h1, h2⟩ := fillStep_inv fetcher S st kw (hb kw (by simp)) hnd hsub
    exact ih _ (fun x hx => hb x (by simp [hx])) h1 h2

lemma foldl_chunks_inv (fetcher : Fetcher) (S : List Kw) :
    ∀ (chs : List (List Kw)) (st : PoolState),
    (∀ b ∈ chs, ∀ x ∈ b, x ∈ S) → (st.pool.map Prod.fst).Nodup →
    (∀ x ∈ st.pool.map Prod.fst, x ∈ S) →
    (((chs.foldl (fun st2 batch =>
        batch.foldl (fillStep fetcher) { st2 with fetches := st2.fetches + 1 }) st).pool.map
        Prod.fst).Nodup) ∧
      ∀ x ∈ (chs.foldl (fun st2 batch =>
        batch.foldl (fillStep fetcher) { st2 with fetches := st2.fetches + 1 }) st).pool.map
        Prod.fst, x ∈ S := by
  intro chs
  induction chs with
  | nil => intro st _ hnd hsub; exact ⟨hnd, hsub⟩
  | cons b rest ih =>
    intro st hb hnd hsub
    simp only [List.foldl_cons]
    obtain ⟨h1, h2⟩ := foldl_fillStep_inv fetcher S b { st with fetches := st.fetches + 1 }
      (hb b (by simp)) hnd hsub
    exact ih _ (fun b2 hb2 => hb b2 (by simp [hb2])) h1 h2

lemma chunksAux_mem : ∀ (fuel : Nat) (l b : List Kw), b ∈ chunksAux fuel l → ∀ x ∈ b, x ∈ l := by
  intro fuel
  induction fuel with
  | zero => intro l b hb; simp [chunksAux] at hb
  | succ f ih =>
    intro l b hb x hx
    cases l with
    | nil => simp [chunksAux] at hb
    | cons y ys =>
      simp only [chunksAux] at hb
      rcases List.mem_cons.mp hb with rfl | hb2
      · exact List.take_subset _ _ hx
      · exact List.drop_subset _ _ (ih _ b hb2 x hx)

lemma fillMissing_inv (fetcher : Fetcher) (S : List Kw) (st : PoolState)
    (hnd : (st.pool.map Prod.fst).Nodup) (hsub : ∀ x ∈ st.pool.map Prod.fst, x ∈ S) :
    ((fillMissing fetcher st).pool.map Prod.fst).Nodup ∧
      ∀ x ∈ (fillMissing fetcher st).pool.map Prod.fst, x ∈ S := by
  unfold fillMissing
  apply foldl_chunks_inv fetcher S _ st _ hnd hsub
  intro b hb x hx
  have hxm : x ∈ (st.pool.filter (fun p => decide (p.2 = none))).map Prod.fst :=
    chunksAux_mem _ _ b hb x hx
  rcases List.mem_map.mp hxm with ⟨p, hp, rfl⟩
  exact hsub _ (List.mem_map_of_mem _ (List.mem_of_mem_filter hp))

lemma seedFold_inv (S : List Kw) : ∀ (seeds : List Kw) (st : PoolState),
    (∀ s ∈ seeds, normalize_keyword s ∈ S) →
    (∀ k ∈ st.queue, k ∈ st.processed) →
    (st.pool.map Prod.fst).Nodup →
    (∀ x ∈ st.pool.map Prod.fst, x ∈ S) →
    (∀ x ∈ st.pool.map Prod.fst, x ∈ st.processed) →
    ((∀ k ∈ (seeds.foldl seedStep st).queue, k ∈ (seeds.foldl seedStep st).processed) ∧
     ((seeds.foldl seedStep st).pool.map Prod.fst).Nodup ∧
     (∀ x ∈ (seeds.foldl seedStep st).pool.map Prod.fst, x ∈ S) ∧
     (∀ x ∈ (seeds.foldl seedStep st).pool.map Prod.fst, x ∈ (seeds.foldl seedStep st).processed)) := by
  intro seeds
  induction seeds with
  | nil => intro st _ hq hnd hsub hkp; exact ⟨hq, hnd, hsub, hkp⟩
  | cons seed rest ih =>
    intro st hS hq hnd hsub hkp
    simp only [List.foldl_cons]
    have hSrest : ∀ s ∈ rest, normalize_keyword s ∈ S := fun s hs => hS s (by simp [hs])
    by_cases hn : normalize_keyword seed ∈ st.processed
    · rw [show seedStep st seed = st from by simp [seedStep, hn]]
      exact ih st hSrest hq hnd hsub hkp
    · have hstep : seedStep st seed =
          { st with queue := st.queue ++ [normalize_keyword seed]
                    processed := st.processed ++ [normalize_keyword seed]
                    pool := dictSet st.pool (normalize_keyword seed) none } := by
        simp [seedStep, hn]
      rw [hstep]
      have hnk : normalize_keyword seed ∉ st.pool.map Prod.fst := fun h => hn (hkp _ h)
      apply ih
      · exact hSrest
      · intro k hk
        rcases List.mem_append.mp hk with h | h
        · exact List.mem_append_left _ (hq k h)
        · exact List.mem_append_right _ h
      · exact dictSet_keys_nodup _ _ hnd
      · intro x hx
        rcases dictSet_keys_subset _ _ x hx with rfl | h
        · exact hS seed (by simp)
        · exact hsub x h
      · intro x hx
        rcases dictSet_keys_subset _ _ x hx with rfl | h
        · exact List.mem_append_right _ (by simp)
        · exact List.mem_append_left _ (hkp x h)

lemma poolLoop_stuck (fetcher : Fetcher) (target : Int) (cities : List Kw) (fuel : Nat)
    (st : PoolState) (h : ∀ k ∈ st.queue, k ∈ st.processed) :
    (poolLoop fetcher target cities (fuel + 1) st).pool = st.pool := by
  have hb : collectBatch st.queue st.processed [] = ([], []) :=
    collectBatch_drops_all_pending _ _ h
  by_cases hc : st.queue ≠ [] ∧ (st.pool.length : Int) < target
  · simp only [poolLoop, hb]
    rw [if_pos hc]
    simp
  · simp only [poolLoop, hb]
    rw [if_neg hc]

lemma nodup_subset_dedup_length {l S : List Kw} (hnd : l.Nodup) (hsub : ∀ x ∈ l, x ∈ S) :
    l.length ≤ S.dedup.length := by
  have h1 : l.toFinset.card = l.length := List.toFinset_card_of_nodup hnd
  have h2 : l.toFinset ⊆ S.toFinset := by
    intro x hx
    rw [List.mem_toFinset] at hx ⊢
    exact hsub x hx
  have h3 : l.toFinset.card ≤ S.toFinset.card := Finset.card_le_card h2
  rw [h1, List.card_toFinset] at h3
  exact h3

lemma mem_finalFilter {minVol : ℚ} {pool : List (Kw × Option Payload)} {p : Kw × Payload}
    (hp : p ∈ finalFilter minVol pool) :
    p.1 ∈ pool.map Prod.fst ∧
    (∃ v, p.2.search_volume = some v ∧ minVol ≤ v) ∧
    p.2.cpc.isSome ∧ p.2.competition.isSome := by
  rcases List.mem_filterMap.mp hp with ⟨a, ha, hfa⟩
  rcases a with ⟨ka, pa⟩
  cases pa with
  | none => simp at hfa
  | some payload =>
    simp only at hfa
    split at hfa
    · next vol hsv =>
        split at hfa
        · next hcond =>
            injection hfa with hfa
            subst hfa
            exact ⟨List.mem_map_of_mem _ ha, ⟨vol, hsv, hcond.1⟩, hcond.2.1, hcond.2.2⟩
        · simp at hfa
    · simp at hfa

lemma finalFilter_length_le (minVol : ℚ) (pool : List (Kw × Option Payload)) :
    (finalFilter minVol pool).length ≤ pool.length :=
  List.length_filterMap_le _ _

/-- C4 (amended): the cleaned pool's size is at most
max(targetSize, number of distinct normalized seeds) — the source adds every
normalized seed to the pool unconditionally, so seeds alone can exceed
targetSize; every returned entry has a present search_volume ≥ minVolume and
present cpc and competition; and every entry whose keyword is not a
normalized seed contains a normalized service-radius city as a substring
(vacuously: only seeds ever reach the cleaned pool, because the frontier
expansion loop is dead code — see collectBatch_drops_all_pending). -/
theorem build_keyword_pool_filters (fetcher : Fetcher) (seeds : List Kw) (target : Int)
    (minVol : ℚ) (cities : List Kw) :
    (((build_keyword_pool fetcher seeds target minVol cities).1.length : Int)
      ≤ max target ((seeds.map normalize_keyword).dedup.length : Int)) ∧
    (∀ p ∈ (build_keyword_pool fetcher seeds target minVol cities).1,
      (∃ v, p.2.search_volume = some v ∧ minVol ≤ v) ∧
        p.2.cpc.isSome ∧ p.2.competition.isSome) ∧
    (∀ p ∈ (build_keyword_pool fetcher seeds target minVol cities).1,
      p.1 ∉ seeds.map normalize_keyword →
      ∃ city ∈ (cities.filter (fun c => decide (c ≠ []))).map normalize_keyword,
        hasSubKw city p.1 = true) := by
  obtain ⟨hq0, hnd0, hsub0, _⟩ :=
    seedFold_inv (seeds.map normalize_keyword) seeds ⟨[], [], [], 0⟩
      (fun s hs => List.mem_map_of_mem _ hs)
      (by intro k hk; simp at hk) (by simp) (by simp) (by simp)
  have hpool1 :
      (poolLoop fetcher target
        ((cities.filter (fun c => decide (c ≠ []))).map normalize_keyword)
        ((seedInit seeds).queue.length + 1) (seedInit seeds)).pool
        = (seedInit seeds).pool :=
    poolLoop_stuck _ _ _ _ _ hq0
  have hfill := fillMissing_inv fetcher (seeds.map normalize_keyword)
    (poolLoop fetcher target
      ((cities.filter (fun c => decide (c ≠ []))).map normalize_keyword)
      ((seedInit seeds).queue.length + 1) (seedInit seeds))
    (by rw [hpool1]; exact hnd0) (by rw [hpool1]; exact hsub0)
  refine ⟨?_, ?_, ?_⟩
  · have hlen1 : (build_keyword_pool fetcher seeds target minVol cities).1.length
        ≤ (fillMissing fetcher
            (poolLoop fetcher target
              ((cities.filter (fun c => decide (c ≠ []))).map normalize_keyword)
              ((seedInit seeds).queue.length + 1) (seedInit seeds))).pool.length :=
      finalFilter_length_le _ _
    have hlen2 := nodup_subset_dedup_length hfill.1 hfill.2
    rw [List.length_map] at hlen2
    have : (build_keyword_pool fetcher seeds target minVol cities).1.length
        ≤ (seeds.map normalize_keyword).dedup.length := le_trans hlen1 hlen2
    have h5 : ((build_keyword_pool fetcher seeds target minVol cities).1.length : Int)
        ≤ ((seeds.map normalize_keyword).dedup.length : Int) := by exact_mod_cast this
    exact le_trans h5 (le_max_right _ _)
  · intro p hp
    exact (mem_finalFilter hp).2
  · intro p hp hns
    exact absurd (hfill.2 _ (mem_finalFilter hp).1) hns

/-- C4 counterexample: with two seeds and targetSize = 1 the cleaned pool has
2 entries, refuting "the returned pool has size ≤ targetSize" as stated. -/
theorem build_keyword_pool_size_counterexample :
    1 < (build_keyword_pool twoSeedFetcher [strK "a", strK "b"] 1 0 []).1.length := by
  have h : (build_keyword_pool twoSeedFetcher [strK "a", strK "b"] 1 0 []).1.length = 2 := rfl
  rw [h]
  decide

/-- C10: when build_keyword_pool returns an empty pool, run_prospecting_async
returns the dictionary {"error": "Empty keyword pool", "scored_keywords": []}
without raising, performs no keyword scoring, and never calls
fetch_customer_domain_data — the empty-pool check precedes the domain
fetch. -/
theorem run_prospecting_empty_pool (fetcher : Fetcher) (domainData : Kw → Option ℝ)
    (seeds : List Kw) (dom : Kw) (avgJob : ℚ) (cities : List Kw) (target : Int) (minVol : ℚ)
    (h : (build_keyword_pool fetcher seeds target minVol cities).1 = []) :
    run_prospecting fetcher domainData seeds dom avgJob cities target minVol
      = { error := some "Empty keyword pool"
          scored_keywords := []
          short_term := ([], 0)
          domainFetched := false
          fetcherCalls := (build_keyword_pool fetcher seeds target minVol cities).2 } := by
  unfold run_prospecting
  simp [h]

theorem run_prospecting_empty_pool_witness :
    (build_keyword_pool emptyFetcher [strK "a"] 5 0 []).1 = [] ∧
    run_prospecting emptyFetcher (fun _ => none) [strK "a"] (strK "example.com") 10 [] 5 0
      = { error := some "Empty keyword pool"
          scored_keywords := []
          short_term := ([], 0)
          domainFetched := false
          fetcherCalls := (build_keyword_pool emptyFetcher [strK "a"] 5 0 []).2 } :=
  ⟨rfl, run_prospecting_empty_pool emptyFetcher (fun _ => none) [strK "a"]
    (strK "example.com") 10 [] 5 0 rfl⟩

lemma foldl_max_le_self (l : List ℝ) : ∀ (a : ℝ), a ≤ l.foldl max a := by
  induction l with
  | nil => intro a; simp
  | cons x xs ih =>
    intro a
    rw [List.foldl_cons]
    exact le_trans (le_max_left a x) (ih (max a x))

lemma foldl_max_mem_le (l : List ℝ) : ∀ (a x : ℝ), x ∈ l → x ≤ l.foldl max a := by
  induction l with
  | nil => intro a x hx; simp at hx
  | cons y xs ih =>
    intro a x hx
    rw [List.foldl_cons]
    rcases List.mem_cons.mp hx with rfl | hx2
    · exact le_trans (le_max_right a x) (foldl_max_le_self xs (max a x))
    · exact ih (max a y) x hx2

lemma foldl_max_mem (l : List ℝ) : ∀ (a : ℝ), l.foldl max a = a ∨ l.foldl max a ∈ l := by
  induction l with
  | nil => intro a; exact Or.inl rfl
  | cons x xs ih =>
    intro a
    rw [List.foldl_cons]
    rcases ih (max a x) with h | h
    · rcases le_total a x with hax | hxa
      · right; rw [h, max_eq_right hax]; simp
      · left; rw [h, max_eq_left hxa]
    · right; exact List.mem_cons_of_mem x h

lemma pyMax_spec (l : List ℝ) (h : l ≠ []) :
    (∀ x ∈ l, x ≤ pyMax l) ∧ ∃ x ∈ l, x = pyMax l := by
  cases l with
  | nil => exact absurd rfl h
  | cons x xs =>
    constructor
    · intro y hy
      show y ≤ xs.foldl max x
      rcases List.mem_cons.mp hy with rfl | hy2
      · exact foldl_max_le_self xs y
      · exact foldl_max_mem_le xs x y hy2
    · rcases foldl_max_mem xs x with h1 | h1
      · exact ⟨x, by simp, h1.symm⟩
      · exact ⟨xs.foldl max x, List.mem_cons_of_mem _ h1, rfl⟩

lemma sortByEstTime_perm (l : List ScoredKw) : (sortByEstTime l).Perm l :=
  List.mergeSort_perm l _

lemma sortByRoiDesc_perm (l : List ScoredKw) : (sortByRoiDesc l).Perm l :=
  List.mergeSort_perm l _

lemma sortByEstTime_sorted (l : List ScoredKw) :
    (sortByEstTime l).Pairwise (fun a b => a.estimated_time ≤ b.estimated_time) := by
  have h := @List.sorted_mergeSort ScoredKw
    (fun a b => decide (a.estimated_time ≤ b.estimated_time))
    (fun a b c hab hbc =>
      decide_eq_true (le_trans (of_decide_eq_true hab) (of_decide_eq_true hbc)))
    (fun a b => by
      rcases le_total a.estimated_time b.estimated_time with hle | hle
      · simp [decide_eq_true hle]
      · simp [decide_eq_true hle]) l
  exact h.imp (fun hab => of_decide_eq_true hab)

lemma sortByRoiDesc_sorted (l : List ScoredKw) :
    (sortByRoiDesc l).Pairwise (fun a b => b.roi ≤ a.roi) := by
  have h := @List.sorted_mergeSort ScoredKw
    (fun a b => decide (b.roi ≤ a.roi))
    (fun a b c hab hbc =>
      decide_eq_true (le_trans (of_decide_eq_true hbc) (of_decide_eq_true hab)))
    (fun a b => by
      rcases le_total b.roi a.roi with hle | hle
      · simp [decide_eq_true hle]
      · simp [decide_eq_true hle]) l
  exact h.imp (fun hab => of_decide_eq_true hab)

/-- C5: for a non-empty scored list, the short-term strategy keeps
min(4, n) keywords, namely a permutation of the first four of the stable
ascending estimated_time sort, re-sorted descending by roi;
max_time_to_implement is the maximum estimated_time over the selection
(attained by a member); and when the list has at least four entries every
selected estimated_time is at most the fourth-smallest estimated_time
(the element at index 3 of the ascending sort). -/
theorem selectTop4_spec (scored : List ScoredKw) (h : scored ≠ []) :
    (selectTop4 scored).1.length = min 4 scored.length ∧
    (selectTop4 scored).1.Perm ((sortByEstTime scored).take 4) ∧
    (selectTop4 scored).1.Pairwise (fun a b => b.roi ≤ a.roi) ∧
    (∀ x ∈ (selectTop4 scored).1, x.estimated_time ≤ (selectTop4 scored).2) ∧
    (∃ x ∈ (selectTop4 scored).1, x.estimated_time = (selectTop4 scored).2) ∧
    (∀ y, ((sortByEstTime scored).map (fun x => x.estimated_time))[3]? = some y →
      ∀ x ∈ (selectTop4 scored).1, x.estimated_time ≤ y) := by
  have hne : scored.isEmpty = false := by
    cases scored with
    | nil => exact absurd rfl h
    | cons a l => rfl
  have hlen : (sortByEstTime scored).length = scored.length :=
    (sortByEstTime_perm scored).length_eq
  have hslen : 0 < (sortByEstTime scored).length := by
    rw [hlen]
    exact List.length_pos.mpr h
  have htake_ne : ((sortByEstTime scored).take 4) ≠ [] := by
    rw [Ne, List.take_eq_nil_iff]
    push_neg
    exact ⟨by norm_num, List.length_pos.mp hslen⟩
  have htake_e : ((sortByEstTime scored).take 4).isEmpty = false := by
    cases hx : (sortByEstTime scored).take 4 with
    | nil => exact absurd hx htake_ne
    | cons a l => rfl
  have hsel : selectTop4 scored
      = (sortByRoiDesc ((sortByEstTime scored).take 4),
         pyMax ((sortByRoiDesc ((sortByEstTime scored).take 4)).map
           (fun x => x.estimated_time))) := by
    simp only [selectTop4, hne, htake_e, Bool.false_eq_true, if_false]
  have hroi_perm := sortByRoiDesc_perm ((sortByEstTime scored).take 4)
  have hroine : sortByRoiDesc ((sortByEstTime scored).take 4) ≠ [] := by
    intro hnil
    rw [hnil] at hroi_perm
    exact htake_ne hroi_perm.nil_eq.symm
  have hmapne : (sortByRoiDesc ((sortByEstTime scored).take 4)).map
      (fun x => x.estimated_time) ≠ [] := by
    simpa using hroine
  obtain ⟨hmax_le, hmax_mem⟩ := pyMax_spec _ hmapne
  rw [hsel]
  refine ⟨?_, hroi_perm, sortByRoiDesc_sorted _, ?_, ?_, ?_⟩
  · rw [hroi_perm.length_eq, List.length_take, hlen]
  · intro x hx
    exact hmax_le _ (List.mem_map_of_mem _ hx)
  · rcases hmax_mem with ⟨m, hm, hme⟩
    rcases List.mem_map.mp hm with ⟨x, hx, rfl⟩
    exact ⟨x, hx, hme⟩
  · intro y hy x hx
    rw [List.getElem?_map] at hy
    cases hse : (sortByEstTime scored)[3]? with
    | none => rw [hse] at hy; simp at hy
    | some s =>
      rw [hse] at hy
      simp only [Option.map_some'] at hy
      injection hy with hy
      obtain ⟨h3, hs3⟩ := List.getElem?_eq_some_iff.mp hse
      have hxt : x ∈ (sortByEstTime scored).take 4 := hroi_perm.mem_iff.mp hx
      rcases List.mem_iff_get.mp hxt with ⟨n, hn⟩
      have hn4 : (n : Nat) < min 4 (sortByEstTime scored).length := by
        have := n.isLt
        simpa [List.length_take] using this
      have hxval : x = (sortByEstTime scored)[(n : Nat)] := by
        rw [← hn, List.get_eq_getElem, List.getElem_take]
      rcases Nat.lt_or_ge (n : Nat) 3 with hlt | hge
      · have hpw := List.pairwise_iff_get.mp (sortByEstTime_sorted scored)
          ⟨(n : Nat), lt_trans hlt h3⟩ ⟨3, h3⟩ hlt
        rw [← hy, ← hs3]
        simp only [List.get_eq_getElem] at hpw
        rw [hxval]
        exact hpw
      · have hn3 : (n : Nat) = 3 := by omega
        have heq : x = (sortByEstTime scored)[3] := by
          rw [hxval]
          congr 1
        rw [heq, hs3, hy]

theorem selectTop4_spec_witness :
    demoScored ≠ [] ∧
    ((selectTop4 demoScored).1.length = min 4 demoScored.length ∧
    (selectTop4 demoScored).1.Perm ((sortByEstTime demoScored).take 4) ∧
    (selectTop4 demoScored).1.Pairwise (fun a b => b.roi ≤ a.roi) ∧
    (∀ x ∈ (selectTop4 demoScored).1, x.estimated_time ≤ (selectTop4 demoScored).2) ∧
    (∃ x ∈ (selectTop4 demoScored).1, x.estimated_time = (selectTop4 demoScored).2) ∧
    (∀ y, ((sortByEstTime demoScored).map (fun x => x.estimated_time))[3]? = some y →
      ∀ x ∈ (selectTop4 demoScored).1, x.estimated_time ≤ y)) :=
  ⟨by simp [demoScored], selectTop4_spec demoScored (by simp [demoScored])⟩

theorem build_keyword_pool_filters_witness :
    (((build_keyword_pool stubFetcher [strK "plumber orlando"] 5 20 [strK "orlando"]).1.length : Int)
      ≤ max 5 (([strK "plumber orlando"].map normalize_keyword).dedup.length : Int)) ∧
    (∀ p ∈ (build_keyword_pool stubFetcher [strK "plumber orlando"] 5 20 [strK "orlando"]).1,
      (∃ v, p.2.search_volume = some v ∧ 20 ≤ v) ∧
        p.2.cpc.isSome ∧ p.2.competition.isSome) ∧
    (∀ p ∈ (build_keyword_pool stubFetcher [strK "plumber orlando"] 5 20 [strK "orlando"]).1,
      p.1 ∉ [strK "plumber orlando"].map normalize_keyword →
      ∃ city ∈ ([strK "orlando"].filter (fun c => decide (c ≠ []))).map normalize_keyword,
        hasSubKw city p.1 = true) :=
  build_keyword_pool_filters stubFetcher [strK "plumber orlando"] 5 20 [strK "orlando"]

/-- C1 (refuted — code bug): surfer_queue_consumer.py never imports
timedelta (line 7 imports only datetime and timezone), so whenever the
(category, location) cache key holds an entry with a lastUpdated timestamp —
in particular one younger than the TTL, the claim's scenario — line 114
raises NameError: name 'timedelta' is not defined, and the boundary handler
marks the task 'failed' with that text as error_message, not 'completed'.
No Fetcher call and no pipeline run happen on this path, but the status
diverges from the claim. -/
theorem process_queue_item_cache_hit_name_error (cache : Kw → Option CacheEntry)
    (fetcher : Fetcher) (domainData : Kw → Option ℝ) (now ttlDays : Int) (task : Task)
    (entry : CacheEntry) (lu : Int)
    (hc : cache (categoryLocationId task) = some entry)
    (hl : entry.lastUpdated = some lu)
    (hfresh : now - lu < ttlDays * 86400) :
    process_queue_item cache fetcher domainData now ttlDays task
      = { finalStatus := .failed
          errorMessage := some "name 'timedelta' is not defined"
          fetcherCalls := 0
          prospectingRan := false } := by
  clear hfresh
  have hcc : cacheCheck cache (categoryLocationId task)
      = .error "name 'timedelta' is not defined" := by
    unfold cacheCheck
    rw [hc]
    show (match entry.lastUpdated with
      | some _ => Except.error "name 'timedelta' is not defined"
      | none => Except.ok ()) = Except.error "name 'timedelta' is not defined"
    rw [hl]
  unfold process_queue_item processBody
  rw [hcc]
  rfl

theorem process_queue_item_cache_hit_name_error_witness :
    demoCache (categoryLocationId demoTask) = some ⟨some 0⟩ ∧
    (⟨some 0⟩ : CacheEntry).lastUpdated = some 0 ∧
    (1000 : Int) - 0 < 7 * 86400 ∧
    process_queue_item demoCache emptyFetcher (fun _ => none) 1000 7 demoTask
      = { finalStatus := .failed
          errorMessage := some "name 'timedelta' is not defined"
          fetcherCalls := 0
          prospectingRan := false } :=
  ⟨rfl, rfl, by decide,
   process_queue_item_cache_hit_name_error demoCache emptyFetcher (fun _ => none) 1000 7
     demoTask ⟨some 0⟩ 0 rfl rfl (by decide)⟩

lemma processBody_ok_completed (cache : Kw → Option CacheEntry) (fetcher : Fetcher)
    (domainData : Kw → Option ℝ) (now ttlDays : Int) (task : Task) (r : ConsumerOutcome)
    (h : processBody cache fetcher domainData now ttlDays task = .ok r) :
    r.finalStatus = .completed := by
  unfold processBody at h
  cases hcc : cacheCheck cache (categoryLocationId task) with
  | error e =>
    rw [hcc] at h
    simp [Bind.bind, Except.bind] at h
  | ok u =>
    rw [hcc] at h
    simp only [Bind.bind, Except.bind] at h
    cases h1 : parseStringList task.seed_keywords with
    | error e => rw [h1] at h; simp [Bind.bind, Except.bind] at h
    | ok seeds =>
      rw [h1] at h
      cases h2 : parseStringList task.service_radius_cities with
      | error e =>
        rw [h2] at h
        simp [Bind.bind, Except.bind] at h
      | ok cities =>
        rw [h2] at h
        simp only [Bind.bind, Except.bind] at h
        injection h with h
        rw [← h]

/-- C7: any exception raised by the processing body is caught at the
queue-consumer boundary: the task is marked failed with error_message set to
the exception's text, and process_queue_item always terminates in a
completed or failed status rather than letting the exception propagate into
the consumer loop. -/
theorem process_queue_item_failure (cache : Kw → Option CacheEntry) (fetcher : Fetcher)
    (domainData : Kw → Option ℝ) (now ttlDays : Int) (task : Task) :
    (∀ e, processBody cache fetcher domainData now ttlDays task = .error e →
      process_queue_item cache fetcher domainData now ttlDays task
        = { finalStatus := .failed
            errorMessage := some e
            fetcherCalls := 0
            prospectingRan := false }) ∧
    ((process_queue_item cache fetcher domainData now ttlDays task).finalStatus
        = .completed ∨
      (process_queue_item cache fetcher domainData now ttlDays task).finalStatus
        = .failed) := by
  constructor
  · intro e he
    unfold process_queue_item
    rw [he]
  · unfold process_queue_item
    cases hb : processBody cache fetcher domainData now ttlDays task with
    | ok r => exact Or.inl (processBody_ok_completed _ _ _ _ _ _ r hb)
    | error e => exact Or.inr rfl

theorem process_queue_item_failure_witness :
    processBody (fun _ => none) emptyFetcher (fun _ => none) 1000000 7 badTask
      = .error "Expecting value" ∧
    process_queue_item (fun _ => none) emptyFetcher (fun _ => none) 1000000 7 badTask
      = { finalStatus := .failed
          errorMessage := some "Expecting value"
          fetcherCalls := 0
          prospectingRan := false } :=
  ⟨rfl,
   (process_queue_item_failure (fun _ => none) emptyFetcher (fun _ => none) 1000000 7
     badTask).1 "Expecting value" rfl⟩

end LeadGen
